import Mathlib

/-!
# Verification of the vasum (security-containers) ContainersManager

A shallow embedding of `src/server/containers-manager.cpp` from the vasum
daemon: the zones-manager state, the proxy-call router with its policy
engine, the cross-zone file-move protocol, foreground selection, and the
host-bus handlers.  Pieces of the repository whose sources are not present
(the `ProxyCallPolicy` matcher, the `Container` runtime operations,
`utils::moveFile`, and the boost regex engine) are modelled from the
specification and are marked as such in their doc comments.
-/

namespace SecurityContainers

/-! ## Container (zone) state -/

/-- Lifecycle states of a zone, per the spec state machine
(STOPPED, STARTING, RUNNING, STOPPING, LOCKED, FROZEN, ABORTING). -/
inductive ContainerState where
  | stopped
  | starting
  | running
  | stopping
  | locked
  | frozen
  | aborting
deriving DecidableEq, Repr

/-- Regular expressions for the file-move permission lists
(`permittedToSend` / `permittedToRecv` hold `boost::regex` values). -/
inductive Rx where
  | emp
  | eps
  | chr (c : Char)
  | anyc
  | alt (a b : Rx)
  | cat (a b : Rx)
  | star (a : Rx)
deriving DecidableEq, Repr

/-- Whether a regular expression accepts the empty string. -/
def Rx.nullable : Rx → Bool
  | .emp => false
  | .eps => true
  | .chr _ => false
  | .anyc => false
  | .alt a b => a.nullable || b.nullable
  | .cat a b => a.nullable && b.nullable
  | .star _ => true

/-- Brzozowski derivative of a regular expression by a character. -/
def Rx.deriv : Rx → Char → Rx
  | .emp, _ => .emp
  | .eps, _ => .emp
  | .chr c, x => if c = x then .eps else .emp
  | .anyc, _ => .eps
  | .alt a b, x => .alt (a.deriv x) (b.deriv x)
  | .cat a b, x =>
      if a.nullable then .alt (.cat (a.deriv x) b) (b.deriv x)
      else .cat (a.deriv x) b
  | .star a, x => .cat (a.deriv x) (.star a)

/-- Modelled from the spec: `boost::regex_match` (the regex engine is the
external boost library, not in the sources); "Regex semantics are
full-string match", so the whole string must be consumed. -/
def rxMatch (r : Rx) (s : String) : Bool :=
  (s.data.foldl Rx.deriv r).nullable

/-- A zone object.  Fields are the attributes used by the manager:
identifier, numeric privilege, the switch-to-default flag, the two
permission regex lists, the lifecycle state and the foreground flag.
The flags `stopFails` and `notifyFails` model the spec sentence that
container-runtime operations may raise a typed error. -/
structure Container where
  id : String
  privilege : Nat
  switchToDefaultAfterTimeout : Bool
  permittedToSend : List Rx
  permittedToRecv : List Rx
  state : ContainerState
  foreground : Bool
  stopFails : Bool
  notifyFails : Bool
deriving DecidableEq, Repr

/-- Modelled from the spec: `Container::isRunning` (container sources not
under src/); true iff the state is RUNNING or LOCKED. -/
def Container.isRunning (c : Container) : Bool :=
  c.state = ContainerState.running || c.state = ContainerState.locked

/-- Modelled from the spec: `Container::isStopped`; true iff STOPPED. -/
def Container.isStopped (c : Container) : Bool :=
  c.state = ContainerState.stopped

/-- Modelled from the spec: `Container::start`; STOPPED → STARTING →
RUNNING, idempotent with respect to re-entry after success. -/
def Container.start (c : Container) : Container :=
  { c with state := ContainerState.running }

/-- Modelled from the spec: `Container::stop`; reaches STOPPED, failures
raise a typed error (modelled by the `stopFails` flag). -/
def Container.stop (c : Container) : Except Unit Container :=
  if c.stopFails then Except.error ()
  else Except.ok { c with state := ContainerState.stopped }

/-- Modelled from the spec: `Container::goForeground`; idempotent. -/
def Container.goForeground (c : Container) : Container :=
  { c with foreground := true }

/-- Modelled from the spec: `Container::goBackground`; idempotent. -/
def Container.goBackground (c : Container) : Container :=
  { c with foreground := false }

/-! ## Manager state -/

/-- The zone map of the manager.  `std::map<std::string, ...>` iterates in
strictly increasing key order; theorems that depend on the iteration
order take sortedness of the keys as a hypothesis. -/
abbrev ContainerMap := List (String × Container)

/-- The mutable state of `ContainersManager` that the verified handlers
touch: the zone map and the `foregroundId` / `defaultId` /
`containersPath` fields of the loaded `ManagerConfig`. -/
structure ManagerState where
  containers : ContainerMap
  foregroundId : String
  defaultId : String
  containersPath : String
deriving DecidableEq, Repr

/-- `mContainers.find(id)`: look the zone up by key. -/
def findC (s : ManagerState) (id : String) : Option Container :=
  (s.containers.find? (fun p => p.1 = id)).map Prod.snd

/-- The keys of the zone map, in iteration order. -/
def keysOf (s : ManagerState) : List String :=
  s.containers.map Prod.fst

/-- In-place mutation of the zone stored under a key. -/
def updateC (m : ContainerMap) (id : String) (f : Container → Container) :
    ContainerMap :=
  m.map (fun p => if p.1 = id then (p.1, f p.2) else p)

/-! ## Proxy-call policy engine -/

/-- Rule effect; `ALLOW` or `DENY`. -/
inductive RuleEffect where
  | allow
  | deny
deriving DecidableEq, Repr

/-- A proxy-call rule: six glob patterns and an effect. -/
structure ProxyCallRule where
  caller : String
  target : String
  targetBusName : String
  targetObjectPath : String
  targetInterface : String
  targetMethod : String
  effect : RuleEffect
deriving DecidableEq, Repr

/-- Modelled from the spec: shell-style glob matching used by the policy
engine (`ProxyCallPolicy` sources not under src/): `*` matches any
sequence, `?` any single character, other characters literally. -/
def globMatch : List Char → List Char → Bool
  | [], [] => true
  | '*' :: ps, [] => globMatch ps []
  | '*' :: ps, c :: cs => globMatch ps (c :: cs) || globMatch ('*' :: ps) cs
  | '?' :: ps, _ :: cs => globMatch ps cs
  | p :: ps, c :: cs => p = c && globMatch ps cs
  | _, _ => false
termination_by p s => p.length + s.length

/-- Modelled from the spec: a single pattern of a rule; the empty pattern
means "match anything". -/
def patternMatches (pat str : String) : Bool :=
  pat = "" || globMatch pat.data str.data

/-- Whether a rule matches the six components of a proxy-call tuple. -/
def ruleMatches (r : ProxyCallRule)
    (caller target bus path iface method : String) : Bool :=
  patternMatches r.caller caller &&
  patternMatches r.target target &&
  patternMatches r.targetBusName bus &&
  patternMatches r.targetObjectPath path &&
  patternMatches r.targetInterface iface &&
  patternMatches r.targetMethod method

/-- Modelled from the spec: `ProxyCallPolicy::isProxyCallAllowed`
(proxy-call-policy.cpp not under src/): walk the ordered rule list, the
first matching rule decides by its effect, and the default is deny. -/
def isProxyCallAllowed (rules : List ProxyCallRule)
    (caller target bus path iface method : String) : Bool :=
  match rules with
  | [] => false
  | r :: rest =>
      if ruleMatches r caller target bus path iface method then
        r.effect = RuleEffect.allow
      else
        isProxyCallAllowed rest caller target bus path iface method

/-! ## Proxy-call router (`ContainersManager::handleProxyCall`) -/

/-- The reserved identifier of the host domain. -/
def HOST_ID : String := "host"

/-- The routing decision taken by `handleProxyCall`: an error reply set on
the result builder, or an asynchronous forward on the host connection or
on a target zone bus. -/
inductive ProxyCallDecision where
  | errorForbidden
  | errorUnknownId
  | forwardToHost (bus path iface method : String)
  | forwardToZone (id : String) (bus path iface method : String)
deriving DecidableEq, Repr

/-- Whether a decision forwards the call to some target. -/
def ProxyCallDecision.isForward : ProxyCallDecision → Bool
  | .forwardToHost _ _ _ _ => true
  | .forwardToZone _ _ _ _ _ => true
  | _ => false

/-- `ContainersManager::handleProxyCall`: deny with ERROR_FORBIDDEN when
the policy rejects the tuple; forward to the host connection when the
target is "host"; forward on the target zone bus when the target is in
the zone map; otherwise reply ERROR_UNKNOWN_ID. -/
def handleProxyCall (rules : List ProxyCallRule) (s : ManagerState)
    (caller target bus path iface method : String) : ProxyCallDecision :=
  if !isProxyCallAllowed rules caller target bus path iface method then
    ProxyCallDecision.errorForbidden
  else if target = HOST_ID then
    ProxyCallDecision.forwardToHost bus path iface method
  else
    match findC s target with
    | none => ProxyCallDecision.errorUnknownId
    | some _ => ProxyCallDecision.forwardToZone target bus path iface method

/-- The outer reply produced once a forwarded call completes. -/
inductive ProxyCallReply where
  | value (v : String)
  | errorForwarded (reason : String)
deriving DecidableEq, Repr

/-- The `asyncResultCallback` lambda of `handleProxyCall`: wrap the
downstream result in the outer reply, turning a downstream exception into
ERROR_FORWARDED with the original reason. -/
def asyncResultCallback (r : Except String String) : ProxyCallReply :=
  match r with
  | Except.ok v => ProxyCallReply.value v
  | Except.error e => ProxyCallReply.errorForwarded e

/-! ## Foreground selection (`focus`, `startAll`, `stopAll`) -/

/-- One iteration of the `goBackground` loop in `focus`: the zone stored
under the key is sent to the background in place. -/
def goBackgroundAt (s : ManagerState) (id : String) : ManagerState :=
  { s with containers := updateC s.containers id Container.goBackground }

/-- The `goBackground` loop of `focus`, one zone at a time. -/
def sendAllToBackground (s : ManagerState) : List String → ManagerState
  | [] => s
  | k :: ks => sendAllToBackground (goBackgroundAt s k) ks

/-- `ContainersManager::focus`: look the target up (throwing, hence
`none`, when absent), send every zone to the background, record the
target id in `config.foregroundId`, then send the target to the
foreground. -/
def focus (s : ManagerState) (id : String) : Option ManagerState :=
  match findC s id with
  | none => none
  | some fg =>
      let s1 := sendAllToBackground s (keysOf s)
      let s2 := { s1 with foregroundId := fg.id }
      some { s2 with containers := updateC s2.containers id Container.goForeground }

/-- The intermediate states of the `goBackground` loop, one per zone. -/
def sendAllToBackgroundTrace (s : ManagerState) : List String → List ManagerState
  | [] => []
  | k :: ks =>
      let s1 := goBackgroundAt s k
      s1 :: sendAllToBackgroundTrace s1 ks

/-- The temporal unfolding of `focus`: every state reached after each of
its mutations, in order — after each `goBackground`, after the
`foregroundId` assignment, and after the final `goForeground`. -/
def focusTrace (s : ManagerState) (id : String) : List ManagerState :=
  match findC s id with
  | none => []
  | some fg =>
      let tr := sendAllToBackgroundTrace s (keysOf s)
      let s1 := sendAllToBackground s (keysOf s)
      let s2 := { s1 with foregroundId := fg.id }
      tr ++ [s2, { s2 with containers := updateC s2.containers id Container.goForeground }]

/-- The number of zones that are running and hold the foreground flag. -/
def runningForegroundCount (s : ManagerState) : Nat :=
  (s.containers.filter (fun p => p.2.foreground && p.2.isRunning)).length

/-- The per-zone loop of `startAll`: start each zone in map order, and
send the zone whose key equals the configured foreground id to the
foreground; report whether that id was found. -/
def startAllLoop : ContainerMap → String → ContainerMap × Bool
  | [], _ => ([], false)
  | (k, c) :: rest, fgId =>
      let c1 := c.start
      let c2 := if k = fgId then c1.goForeground else c1
      let r := startAllLoop rest fgId
      ((k, c2) :: r.1, (k = fgId) || r.2)

/-- `std::min_element` over the zone map with the comparator
`c1.privilege < c2.privilege`: keeps the current candidate and replaces
it only on a strictly smaller privilege, hence returns the first
minimal element in iteration order. -/
def minElement : ContainerMap → Option (String × Container)
  | [] => none
  | x :: xs =>
      some (xs.foldl (fun m y => if y.2.privilege < m.2.privilege then y else m) x)

/-- `ContainersManager::startAll`: start every zone in map order, sending
the configured foreground zone to the foreground when met; when the
configured id was not found, pick `std::min_element` by privilege,
record its id in `config.foregroundId` and send it to the foreground.
With an empty map the iterator returned by `std::min_element` is the end
iterator and dereferencing it is undefined, hence `none`. -/
def startAll (s : ManagerState) : Option ManagerState :=
  let r := startAllLoop s.containers s.foregroundId
  if r.2 then some { s with containers := r.1 }
  else
    match minElement r.1 with
    | none => none
    | some m =>
        some { s with
               containers := updateC r.1 m.1 Container.goForeground,
               foregroundId := m.2.id }

/-- `ContainersManager::stopAll`: stop each zone in map order.  The loop
body has no exception handler, so a typed error thrown by one stop
aborts the loop: zones already processed stay stopped, the remaining
zones are untouched, and the second component records that the exception
propagated out of `stopAll`. -/
def stopAllLoop : ContainerMap → ContainerMap × Bool
  | [] => ([], false)
  | (k, c) :: rest =>
      match c.stop with
      | Except.ok c1 =>
          let r := stopAllLoop rest
          ((k, c1) :: r.1, r.2)
      | Except.error _ => ((k, c) :: rest, true)

/-! ## Host-bus and zone-bus handlers -/

/-- `ContainersManager::getRunningForegroundContainerId`: walk the zone
map and return the first key that equals `config.foregroundId` and whose
zone is running; otherwise the empty string. -/
def getRunningForegroundContainerId (s : ManagerState) : String :=
  match s.containers.find? (fun p => p.1 = s.foregroundId && p.2.isRunning) with
  | some p => p.1
  | none => ""

/-- A notification delivered to a zone bus:
(target zone, sender, application, message). -/
structure Notification where
  target : String
  sender : String
  application : String
  message : String
deriving DecidableEq, Repr

/-- `ContainersManager::notifyActiveContainerHandler`: find the running
foreground zone; when one exists and differs from the caller, call
`sendNotification(caller, application, message)` on it — exceptions from
the delivery are caught and logged inside the handler, so the returned
list records the invocation whether or not delivery succeeds.  The zone
is fetched with `operator[]`, which default-constructs a null pointer
when the key is absent; the immediate dereference of that null pointer
is undefined behaviour, modelled by `none`. -/
def notifyActiveContainerHandler (s : ManagerState)
    (caller application message : String) : Option (List Notification) :=
  let activeContainer := getRunningForegroundContainerId s
  if !activeContainer.isEmpty && caller ≠ activeContainer then
    match findC s activeContainer with
    | some _ => some [⟨activeContainer, caller, application, message⟩]
    | none => none
  else
    some []

/-- `ContainersManager::handleGetActiveContainerIdCall`: index the zone
map with `operator[]` at `config.foregroundId` and dereference the stored
pointer.  When the key is absent, `operator[]` inserts a
default-constructed (null) pointer whose dereference is undefined
behaviour, modelled by `none`; otherwise reply with the foreground id
when that zone is running and with the empty string when it is not. -/
def handleGetActiveContainerIdCall (s : ManagerState) : Option String :=
  match findC s s.foregroundId with
  | none => none
  | some c => some (if c.isRunning then s.foregroundId else "")

/-- Replies of `handleSetActiveContainerCall`. -/
inductive SetActiveReply where
  | errorUnknownId
  | errorContainerStopped
  | voidSuccess
deriving DecidableEq, Repr

/-- `ContainersManager::handleSetActiveContainerCall`: reply
ERROR_UNKNOWN_ID when the id is not in the zone map, reply
ERROR_CONTAINER_STOPPED when the zone is stopped (both before any state
change), otherwise `focus(id)` and reply success. -/
def handleSetActiveContainerCall (s : ManagerState) (id : String) :
    SetActiveReply × ManagerState :=
  match findC s id with
  | none => (SetActiveReply.errorUnknownId, s)
  | some c =>
      if c.isStopped then (SetActiveReply.errorContainerStopped, s)
      else (SetActiveReply.voidSuccess, (focus s id).getD s)

/-! ## Cross-zone file move (`handleContainerMoveFileRequest`) -/

/-- The helper from the anonymous namespace of containers-manager.cpp:
true iff the string matches (full-string) some regex of the vector. -/
def regexMatchVector (str : String) (v : List Rx) : Bool :=
  v.any (fun r => rxMatch r str)

/-- A file tree: an association of absolute paths to file contents. -/
abbrev FileSystem := List (String × String)

/-- Modelled from the spec: `utils::moveFile` (utils sources not under
src/); atomically move the file at `src` to `dst`, returning `none` on
failure (no file at the source path). -/
def moveFile (src dst : String) (fs : FileSystem) : Option FileSystem :=
  match fs.find? (fun p => p.1 = src) with
  | none => none
  | some p =>
      some ((dst, p.2) :: fs.filter (fun q => !(q.1 = src || q.1 = dst)))

/-- The string reply codes of `FileMoveRequest`. -/
inductive FileMoveResult where
  | destinationNotFound
  | wrongDestination
  | noPermissionsSend
  | noPermissionsReceive
  | failed
  | succeeded
deriving DecidableEq, Repr

/-- `fs::absolute(containerId, containersPath).string() + path`. -/
def containerFilePath (containersPath containerId path : String) : String :=
  containersPath ++ "/" ++ containerId ++ path

/-- `ContainersManager::handleContainerMoveFileRequest`.  The checks run
in source order: source zone lookup (no reply at all when absent),
destination zone lookup, identity of source and destination, the
sender-side and receiver-side permission regexes, and only then the
filesystem move; on success the destination zone is notified (delivery
failures are caught and logged).  The result carries the reply (if any),
the file tree after the handler, and the notifications sent. -/
def handleContainerMoveFileRequest (s : ManagerState) (fs : FileSystem)
    (srcContainerId dstContainerId path : String) :
    Option FileMoveResult × FileSystem × List Notification :=
  match findC s srcContainerId with
  | none => (none, fs, [])
  | some srcContainer =>
    match findC s dstContainerId with
    | none => (some FileMoveResult.destinationNotFound, fs, [])
    | some dstContainer =>
      if srcContainerId = dstContainerId then
        (some FileMoveResult.wrongDestination, fs, [])
      else if !regexMatchVector path srcContainer.permittedToSend then
        (some FileMoveResult.noPermissionsSend, fs, [])
      else if !regexMatchVector path dstContainer.permittedToRecv then
        (some FileMoveResult.noPermissionsReceive, fs, [])
      else
        let srcPath := containerFilePath s.containersPath srcContainerId path
        let dstPath := containerFilePath s.containersPath dstContainerId path
        match moveFile srcPath dstPath fs with
        | none => (some FileMoveResult.failed, fs, [])
        | some fs1 =>
            (some FileMoveResult.succeeded, fs1,
             [⟨dstContainerId, srcContainerId, path, "FILE_MOVE_SUCCEEDED"⟩])

/-! ## Basic facts about the zone map -/

theorem findC_isSome_iff (s : ManagerState) (id : String) :
    (findC s id).isSome = true ↔ id ∈ keysOf s := by
  simp only [findC, keysOf, Option.isSome_map', List.find?_isSome, List.mem_map]
  constructor
  · rintro ⟨p, hp, he⟩
    exact ⟨p, hp, by simpa using he⟩
  · rintro ⟨p, hp, he⟩
    exact ⟨p, hp, by simpa using he⟩

theorem findC_eq_none_iff (s : ManagerState) (id : String) :
    findC s id = none ↔ id ∉ keysOf s := by
  constructor
  · intro h hmem
    have hs := (findC_isSome_iff s id).2 hmem
    rw [h] at hs
    simp at hs
  · intro h
    cases hf : findC s id with
    | none => rfl
    | some c => exact absurd ((findC_isSome_iff s id).1 (by rw [hf]; rfl)) h

theorem mem_updateC {m : ContainerMap} {id : String} {f : Container → Container}
    {p : String × Container} (h : p ∈ updateC m id f) :
    ∃ q ∈ m, p = (if q.1 = id then (q.1, f q.2) else q) := by
  simp only [updateC, List.mem_map] at h
  obtain ⟨q, hq, he⟩ := h
  exact ⟨q, hq, he.symm⟩

/-! ## Concrete states used as witnesses -/

/-- A regex matching every string. -/
def rxAny : Rx := Rx.star Rx.anyc

/-- A running foreground zone. -/
def zRunning : Container :=
  { id := "z1", privilege := 1, switchToDefaultAfterTimeout := false,
    permittedToSend := [rxAny], permittedToRecv := [rxAny],
    state := ContainerState.running, foreground := true,
    stopFails := false, notifyFails := false }

/-- A stopped background zone. -/
def zSleepy : Container :=
  { id := "z2", privilege := 3, switchToDefaultAfterTimeout := false,
    permittedToSend := [rxAny], permittedToRecv := [rxAny],
    state := ContainerState.stopped, foreground := false,
    stopFails := false, notifyFails := false }

/-- A manager state with one running and one stopped zone. -/
def sTwo : ManagerState :=
  { containers := [("z1", zRunning), ("z2", zSleepy)],
    foregroundId := "z1", defaultId := "z1", containersPath := "/var/zones" }

/-- C9: GetActiveZoneId is total exactly when `config.foregroundId` is a
key of the zone map (otherwise `operator[]` creates a null zone object
that is immediately dereferenced), and under that precondition it
returns the foreground id when that zone is running and the empty string
otherwise. -/
theorem handleGetActiveContainerIdCall_safety (s : ManagerState) :
    ((handleGetActiveContainerIdCall s).isSome = true ↔ s.foregroundId ∈ keysOf s) ∧
    (∀ c, findC s s.foregroundId = some c →
      handleGetActiveContainerIdCall s =
        some (if c.isRunning then s.foregroundId else "")) := by
  constructor
  · rw [← findC_isSome_iff]
    unfold handleGetActiveContainerIdCall
    cases findC s s.foregroundId <;> simp
  · intro c hc
    unfold handleGetActiveContainerIdCall
    rw [hc]

theorem handleGetActiveContainerIdCall_safety_witness :
    handleGetActiveContainerIdCall sTwo = some "z1" := by
  have h := (handleGetActiveContainerIdCall_safety sTwo).2 zRunning (by decide)
  simpa using h

/-- C4: SetActiveZone replies ERROR_UNKNOWN_ID for an unknown id and
ERROR_CONTAINER_STOPPED for a stopped zone, leaving the whole manager
state (foreground designation and every zone state) unchanged in both
error cases; for an existing non-stopped zone it performs `focus(id)` and
replies success. -/
theorem handleSetActiveContainerCall_spec (s : ManagerState) (id : String) :
    (findC s id = none →
      handleSetActiveContainerCall s id = (SetActiveReply.errorUnknownId, s)) ∧
    (∀ c, findC s id = some c → c.isStopped = true →
      handleSetActiveContainerCall s id = (SetActiveReply.errorContainerStopped, s)) ∧
    (∀ c, findC s id = some c → c.isStopped = false →
      ∃ s1, focus s id = some s1 ∧
        handleSetActiveContainerCall s id = (SetActiveReply.voidSuccess, s1)) := by
  refine ⟨?_, ?_, ?_⟩
  · intro h
    simp [handleSetActiveContainerCall, h]
  · intro c hc hstop
    simp [handleSetActiveContainerCall, hc, hstop]
  · intro c hc hstop
    unfold handleSetActiveContainerCall focus
    rw [hc]
    simp [hstop]

theorem handleSetActiveContainerCall_spec_witness :
    (handleSetActiveContainerCall sTwo "z1").1 = SetActiveReply.voidSuccess := by
  obtain ⟨s1, _, h2⟩ :=
    (handleSetActiveContainerCall_spec sTwo "z1").2.2 zRunning (by decide) (by decide)
  rw [h2]


/-- Zeta-reduced form of the notify handler, for case analysis. -/
theorem notifyActiveContainerHandler_eval (s : ManagerState)
    (caller application message : String) :
    notifyActiveContainerHandler s caller application message =
      if (!(getRunningForegroundContainerId s).isEmpty &&
          decide (caller ≠ getRunningForegroundContainerId s)) = true then
        match findC s (getRunningForegroundContainerId s) with
        | some _ =>
            some [⟨getRunningForegroundContainerId s, caller, application, message⟩]
        | none => none
      else some [] := rfl

/-- C7: NotifyActiveContainer from caller zone c delivers
send_notification(c, app, msg) to exactly the running foreground zone
when one exists and differs from c, and delivers nothing when no running
foreground zone exists or the foreground zone is the caller itself;
delivery exceptions are caught inside the handler (the handler always
produces a result, modelled by `some`). -/
theorem notifyActiveContainerHandler_spec (s : ManagerState)
    (caller application message : String)
    (hne : ∀ p ∈ s.containers, p.1 ≠ "") :
    ((∃ p ∈ s.containers, p.1 = s.foregroundId ∧ p.2.isRunning = true) →
      caller ≠ s.foregroundId →
      notifyActiveContainerHandler s caller application message =
        some [⟨s.foregroundId, caller, application, message⟩]) ∧
    ((¬ ∃ p ∈ s.containers, p.1 = s.foregroundId ∧ p.2.isRunning = true) →
      notifyActiveContainerHandler s caller application message = some []) ∧
    (caller = s.foregroundId →
      notifyActiveContainerHandler s caller application message = some []) := by
  have hemp : ("" : String).isEmpty = true := rfl
  refine ⟨?_, ?_, ?_⟩
  · rintro ⟨p, hp, hid, hrun⟩ hcaller
    cases hf : s.containers.find? (fun q => q.1 = s.foregroundId && q.2.isRunning) with
    | none =>
        rw [List.find?_eq_none] at hf
        have hnp := hf p hp
        simp [hid, hrun] at hnp
    | some q =>
        have hq := List.find?_some hf
        have hqmem := List.mem_of_find?_eq_some hf
        simp only [Bool.and_eq_true, decide_eq_true_eq] at hq
        have hact : getRunningForegroundContainerId s = s.foregroundId := by
          unfold getRunningForegroundContainerId
          rw [hf]
          exact hq.1
        have hne1 : s.foregroundId ≠ "" := hq.1 ▸ hne q hqmem
        have hmem : s.foregroundId ∈ keysOf s := by
          rw [keysOf, List.mem_map]
          exact ⟨q, hqmem, hq.1⟩
        have hfind : (findC s s.foregroundId).isSome = true :=
          (findC_isSome_iff s s.foregroundId).2 hmem
        have hcond : (!(s.foregroundId).isEmpty &&
            decide (caller ≠ s.foregroundId)) = true := by
          have h1 : (s.foregroundId).isEmpty = false := by
            cases hfg : s.foregroundId.isEmpty
            · rfl
            · exact absurd ((String.isEmpty_iff _).mp hfg) hne1
          simp [h1, hcaller]
        rw [notifyActiveContainerHandler_eval, hact, if_pos hcond]
        cases hc : findC s s.foregroundId with
        | none => rw [hc] at hfind; simp at hfind
        | some c => rfl
  · intro hno
    cases hf : s.containers.find? (fun q => q.1 = s.foregroundId && q.2.isRunning) with
    | some q =>
        have hq := List.find?_some hf
        have hqmem := List.mem_of_find?_eq_some hf
        simp only [Bool.and_eq_true, decide_eq_true_eq] at hq
        exact absurd ⟨q, hqmem, hq.1, hq.2⟩ hno
    | none =>
        have hact : getRunningForegroundContainerId s = "" := by
          unfold getRunningForegroundContainerId
          rw [hf]
        rw [notifyActiveContainerHandler_eval, hact, if_neg (by simp [hemp])]
  · intro hcaller
    cases hf : s.containers.find? (fun q => q.1 = s.foregroundId && q.2.isRunning) with
    | none =>
        have hact : getRunningForegroundContainerId s = "" := by
          unfold getRunningForegroundContainerId
          rw [hf]
        rw [notifyActiveContainerHandler_eval, hact, if_neg (by simp [hemp])]
    | some q =>
        have hq := List.find?_some hf
        simp only [Bool.and_eq_true, decide_eq_true_eq] at hq
        have hact : getRunningForegroundContainerId s = s.foregroundId := by
          unfold getRunningForegroundContainerId
          rw [hf]
          exact hq.1
        rw [notifyActiveContainerHandler_eval, hact, if_neg (by simp [hcaller])]

theorem notifyActiveContainerHandler_spec_witness :
    notifyActiveContainerHandler sTwo "z2" "app" "hello" =
      some [⟨"z1", "z2", "app", "hello"⟩] :=
  (notifyActiveContainerHandler_spec sTwo "z2" "app" "hello" (by decide)).1
    ⟨("z1", zRunning), by decide, by decide, by decide⟩ (by decide)

/-- Unfolding of the file-move handler once the source zone is known. -/
theorem fileMove_run (s : ManagerState) (srcId dstId path : String)
    (srcC : Container) (h : findC s srcId = some srcC) (fs : FileSystem) :
    handleContainerMoveFileRequest s fs srcId dstId path =
      match findC s dstId with
      | none => (some FileMoveResult.destinationNotFound, fs, [])
      | some dstC =>
          if srcId = dstId then (some FileMoveResult.wrongDestination, fs, [])
          else if !regexMatchVector path srcC.permittedToSend then
            (some FileMoveResult.noPermissionsSend, fs, [])
          else if !regexMatchVector path dstC.permittedToRecv then
            (some FileMoveResult.noPermissionsReceive, fs, [])
          else
            match moveFile (containerFilePath s.containersPath srcId path)
                (containerFilePath s.containersPath dstId path) fs with
            | none => (some FileMoveResult.failed, fs, [])
            | some fs1 =>
                (some FileMoveResult.succeeded, fs1,
                 [⟨dstId, srcId, path, "FILE_MOVE_SUCCEEDED"⟩]) := by
  unfold handleContainerMoveFileRequest
  rw [h]

/-- Unfolding of the file-move handler when the source zone is unknown. -/
theorem fileMove_run_none (s : ManagerState) (srcId dstId path : String)
    (h : findC s srcId = none) (fs : FileSystem) :
    handleContainerMoveFileRequest s fs srcId dstId path = (none, fs, []) := by
  unfold handleContainerMoveFileRequest
  rw [h]

/-- C10: on any of the four identity or permission error replies of
FileMoveRequest, the move is never invoked: the file tree is returned
unchanged, and the very same reply arises from every file tree. -/
theorem fileMove_error_reply_leaves_filesystem (s : ManagerState) (fs : FileSystem)
    (srcId dstId path : String) (r : FileMoveResult)
    (hr : r = FileMoveResult.destinationNotFound ∨ r = FileMoveResult.wrongDestination ∨
          r = FileMoveResult.noPermissionsSend ∨ r = FileMoveResult.noPermissionsReceive)
    (h : (handleContainerMoveFileRequest s fs srcId dstId path).1 = some r) :
    (handleContainerMoveFileRequest s fs srcId dstId path).2.1 = fs ∧
    ∀ fs1, (handleContainerMoveFileRequest s fs1 srcId dstId path).1 = some r ∧
           (handleContainerMoveFileRequest s fs1 srcId dstId path).2.1 = fs1 := by
  have hfail : r ≠ FileMoveResult.failed ∧ r ≠ FileMoveResult.succeeded := by
    rcases hr with h1 | h1 | h1 | h1 <;> subst h1 <;> exact ⟨by simp, by simp⟩
  rcases hs : findC s srcId with _ | srcC
  · rw [fileMove_run_none s srcId dstId path hs fs] at h
    simp at h
  · have hrw := fileMove_run s srcId dstId path srcC hs
    rcases hd : findC s dstId with _ | dstC
    · rw [hrw fs, hd] at h
      simp only [Option.some.injEq] at h
      subst h
      refine ⟨?_, fun fs1 => ⟨?_, ?_⟩⟩ <;> (rw [hrw]; simp [hd])
    · rw [hrw fs, hd] at h
      by_cases he : srcId = dstId
      · simp only [if_pos he, Option.some.injEq] at h
        subst h
        refine ⟨?_, fun fs1 => ⟨?_, ?_⟩⟩ <;> (rw [hrw]; simp [hd, if_pos he])
      · simp only [if_neg he] at h
        cases hsend : regexMatchVector path srcC.permittedToSend with
        | false =>
            simp [hsend] at h
            subst h
            refine ⟨?_, fun fs1 => ⟨?_, ?_⟩⟩ <;>
              (rw [hrw]; simp [hd, if_neg he, hsend])
        | true =>
            simp [hsend] at h
            cases hrecv : regexMatchVector path dstC.permittedToRecv with
            | false =>
                simp [hrecv] at h
                subst h
                refine ⟨?_, fun fs1 => ⟨?_, ?_⟩⟩ <;>
                  (rw [hrw]; simp [hd, if_neg he, hsend, hrecv])
            | true =>
                exfalso
                simp [hrecv] at h
                rcases hm : moveFile (containerFilePath s.containersPath srcId path)
                    (containerFilePath s.containersPath dstId path) fs with _ | fs2 <;>
                  simp_all

theorem fileMove_error_reply_leaves_filesystem_witness :
    (handleContainerMoveFileRequest sTwo [("/x", "data")] "z1" "ghost" "/x").2.1 =
      [("/x", "data")] :=
  (fileMove_error_reply_leaves_filesystem sTwo [("/x", "data")] "z1" "ghost" "/x"
    FileMoveResult.destinationNotFound (Or.inl rfl) (by decide)).1

/-- The FileMoveRequest reply exactly as the specification words it, for
comparison with the handler: missing destination, identical source and
destination, sender-side permission, receiver-side permission, then the
move itself; permission means full-string-matching some regex of the
respective list. -/
def fileMoveReplySpec (srcC : Container) (dstC : Option Container)
    (srcId dstId path : String) (moveSucceeds : Bool) : FileMoveResult :=
  match dstC with
  | none => FileMoveResult.destinationNotFound
  | some dstC =>
      if srcId = dstId then FileMoveResult.wrongDestination
      else if !(srcC.permittedToSend.any (fun rx => rxMatch rx path)) then
        FileMoveResult.noPermissionsSend
      else if !(dstC.permittedToRecv.any (fun rx => rxMatch rx path)) then
        FileMoveResult.noPermissionsReceive
      else if !moveSucceeds then FileMoveResult.failed
      else FileMoveResult.succeeded

/-- C3: for a FileMoveRequest issued by a zone that is in the map, the
reply of the handler is precisely the code of the first failing check in
the order the specification gives. -/
theorem fileMoveRequest_reply_refines_spec (s : ManagerState) (fs : FileSystem)
    (srcId dstId path : String) (srcC : Container)
    (h : findC s srcId = some srcC) :
    (handleContainerMoveFileRequest s fs srcId dstId path).1 =
      some (fileMoveReplySpec srcC (findC s dstId) srcId dstId path
        (moveFile (containerFilePath s.containersPath srcId path)
          (containerFilePath s.containersPath dstId path) fs).isSome) := by
  rw [fileMove_run s srcId dstId path srcC h fs]
  rcases findC s dstId with _ | dstC
  · rfl
  · unfold fileMoveReplySpec
    by_cases he : srcId = dstId
    · simp [if_pos he]
    · simp only [if_neg he, regexMatchVector]
      by_cases hsend : (srcC.permittedToSend.any fun r => rxMatch r path) = true
      · simp only [hsend, Bool.not_true, Bool.false_eq_true, if_false]
        by_cases hrecv : (dstC.permittedToRecv.any fun r => rxMatch r path) = true
        · simp only [hrecv, Bool.not_true, Bool.false_eq_true, if_false]
          rcases hmv : moveFile (containerFilePath s.containersPath srcId path)
              (containerFilePath s.containersPath dstId path) fs with _ | fs2 <;>
            simp [hmv]
        · have hrecv2 : (dstC.permittedToRecv.any fun r => rxMatch r path) = false := by
            simpa using hrecv
          simp [hrecv2]
      · have hsend2 : (srcC.permittedToSend.any fun r => rxMatch r path) = false := by
          simpa using hsend
        simp [hsend2]

theorem fileMoveRequest_reply_refines_spec_witness :
    (handleContainerMoveFileRequest sTwo [("/var/zones/z1/a", "d")] "z1" "z2" "a").1 =
      some (fileMoveReplySpec zRunning (findC sTwo "z2") "z1" "z2" "a"
        (moveFile (containerFilePath sTwo.containersPath "z1" "a")
          (containerFilePath sTwo.containersPath "z2" "a")
          [("/var/zones/z1/a", "d")]).isSome) :=
  fileMoveRequest_reply_refines_spec sTwo [("/var/zones/z1/a", "d")] "z1" "z2" "a"
    zRunning (by decide)

/-- C1: the authorization decision for a proxy-call tuple is the effect of
the first matching rule of the ordered list (deny when none matches), and
a denied call replies ERROR_FORBIDDEN and is not forwarded to any target. -/
theorem proxyCall_first_match_decides (rules : List ProxyCallRule) (s : ManagerState)
    (caller target bus path iface method : String) :
    (isProxyCallAllowed rules caller target bus path iface method =
      (match rules.find? (fun r => ruleMatches r caller target bus path iface method) with
       | some r => decide (r.effect = RuleEffect.allow)
       | none => false)) ∧
    (isProxyCallAllowed rules caller target bus path iface method = false →
      handleProxyCall rules s caller target bus path iface method =
        ProxyCallDecision.errorForbidden ∧
      (handleProxyCall rules s caller target bus path iface method).isForward = false) := by
  constructor
  · induction rules with
    | nil => rfl
    | cons r rest ih =>
        cases hm : ruleMatches r caller target bus path iface method with
        | true =>
            rw [List.find?_cons_of_pos
              (p := fun x => ruleMatches x caller target bus path iface method) rest hm]
            simp [isProxyCallAllowed, hm]
        | false =>
            rw [List.find?_cons_of_neg
              (p := fun x => ruleMatches x caller target bus path iface method) rest
              (by simp [hm])]
            simpa [isProxyCallAllowed, hm] using ih
  · intro hdeny
    have h1 : handleProxyCall rules s caller target bus path iface method =
        ProxyCallDecision.errorForbidden := by
      unfold handleProxyCall
      rw [hdeny]
      rfl
    exact ⟨h1, by rw [h1]; rfl⟩

theorem proxyCall_first_match_decides_witness :
    handleProxyCall [] sTwo "z1" "host" "b" "/p" "i" "m" =
      ProxyCallDecision.errorForbidden :=
  ((proxyCall_first_match_decides [] sTwo "z1" "host" "b" "/p" "i" "m").2 rfl).1

/-- A rule allowing every tuple (all patterns empty ⇒ match anything). -/
def allowAllRule : ProxyCallRule :=
  { caller := "", target := "", targetBusName := "", targetObjectPath := "",
    targetInterface := "", targetMethod := "", effect := RuleEffect.allow }

/-- C2 counterexample: an authorized call whose target "z2" is present in
the zone map but stopped is nevertheless forwarded to that zone's bus;
the reply is not ERROR_UNKNOWN_ID although the target is not running, so
the running check the claim describes does not exist in the handler. -/
theorem proxyCall_stopped_target_forwarded_cex :
    isProxyCallAllowed [allowAllRule] "z1" "z2" "b" "/p" "i" "m" = true ∧
    findC sTwo "z2" = some zSleepy ∧
    zSleepy.isRunning = false ∧
    handleProxyCall [allowAllRule] sTwo "z1" "z2" "b" "/p" "i" "m" =
      ProxyCallDecision.forwardToZone "z2" "b" "/p" "i" "m" ∧
    handleProxyCall [allowAllRule] sTwo "z1" "z2" "b" "/p" "i" "m" ≠
      ProxyCallDecision.errorUnknownId := by
  refine ⟨rfl, by decide, rfl, rfl, by decide⟩

/-- C2 (amended): for every authorized proxy call, target "host" forwards
on the host connection; a target present in the zone map is forwarded on
that zone's bus regardless of the zone's state; a target absent from the
zone map replies ERROR_UNKNOWN_ID; and a downstream error is wrapped as
ERROR_FORWARDED with the original reason. -/
theorem proxyCall_forwarding_spec (rules : List ProxyCallRule) (s : ManagerState)
    (caller target bus path iface method : String)
    (hAllowed : isProxyCallAllowed rules caller target bus path iface method = true) :
    (target = HOST_ID →
      handleProxyCall rules s caller target bus path iface method =
        ProxyCallDecision.forwardToHost bus path iface method) ∧
    (target ≠ HOST_ID → ∀ c, findC s target = some c →
      handleProxyCall rules s caller target bus path iface method =
        ProxyCallDecision.forwardToZone target bus path iface method) ∧
    (target ≠ HOST_ID → findC s target = none →
      handleProxyCall rules s caller target bus path iface method =
        ProxyCallDecision.errorUnknownId) ∧
    (∀ e, asyncResultCallback (Except.error e) = ProxyCallReply.errorForwarded e) ∧
    (∀ v, asyncResultCallback (Except.ok v) = ProxyCallReply.value v) := by
  refine ⟨?_, ?_, ?_, fun e => rfl, fun v => rfl⟩
  · intro ht
    subst ht
    simp [handleProxyCall, hAllowed]
  · intro ht c hc
    simp [handleProxyCall, hAllowed, if_neg ht, hc]
  · intro ht hc
    simp [handleProxyCall, hAllowed, if_neg ht, hc]

theorem proxyCall_forwarding_spec_witness :
    handleProxyCall [allowAllRule] sTwo "host" "z1" "b" "/p" "i" "m" =
      ProxyCallDecision.forwardToZone "z1" "b" "/p" "i" "m" :=
  (proxyCall_forwarding_spec [allowAllRule] sTwo "host" "z1" "b" "/p" "i" "m"
    (by decide)).2.1 (by decide) zRunning (by decide)

/-- Closed form of the `startAll` loop: every zone is started in map
order, the zone matching the configured foreground id (if any) is sent to
the foreground, and the flag records whether that id was met. -/
theorem startAllLoop_eq (m : ContainerMap) (fgId : String) :
    startAllLoop m fgId =
      (m.map (fun p =>
        (p.1, if p.1 = fgId then p.2.start.goForeground else p.2.start)),
       m.any (fun p => p.1 = fgId)) := by
  induction m with
  | nil => rfl
  | cons q rest ih =>
      obtain ⟨k, c⟩ := q
      simp only [startAllLoop, ih, List.map_cons, List.any_cons]

/-- The two shapes a successful `startAll` can take: the configured
foreground id was met during the loop, or `std::min_element` chose the
foreground. -/
theorem startAll_cases (s : ManagerState) (s1 : ManagerState)
    (hstart : startAll s = some s1) :
    ((startAllLoop s.containers s.foregroundId).2 = true ∧
      s1 = { s with containers := (startAllLoop s.containers s.foregroundId).1 }) ∨
    ((startAllLoop s.containers s.foregroundId).2 = false ∧
      ∃ m0, minElement (startAllLoop s.containers s.foregroundId).1 = some m0 ∧
        s1 = { s with
               containers := updateC (startAllLoop s.containers s.foregroundId).1
                 m0.1 Container.goForeground,
               foregroundId := m0.2.id }) := by
  simp only [startAll] at hstart
  by_cases hb : (startAllLoop s.containers s.foregroundId).2 = true
  · rw [if_pos hb] at hstart
    exact Or.inl ⟨hb, (Option.some.inj hstart).symm⟩
  · have hb2 : (startAllLoop s.containers s.foregroundId).2 = false := by
      simpa using hb
    rw [if_neg hb] at hstart
    rcases hmin : minElement (startAllLoop s.containers s.foregroundId).1 with _ | m0
    · rw [hmin] at hstart
      simp at hstart
    · rw [hmin] at hstart
      exact Or.inr ⟨hb2, m0, rfl, (Option.some.inj hstart).symm⟩

/-- Starting and foregrounding zones never touches the `stopFails` flag. -/
theorem startAll_preserves_stopFails (s : ManagerState) (s1 : ManagerState)
    (hstart : startAll s = some s1) (h : ∀ p ∈ s.containers, p.2.stopFails = false) :
    ∀ p ∈ s1.containers, p.2.stopFails = false := by
  have hloop : ∀ p ∈ (startAllLoop s.containers s.foregroundId).1,
      p.2.stopFails = false := by
    rw [startAllLoop_eq]
    intro p hp
    simp only [List.mem_map] at hp
    obtain ⟨q, hq, he⟩ := hp
    have := h q hq
    subst he
    by_cases hk : q.1 = s.foregroundId <;>
      simp [hk, Container.start, Container.goForeground, this]
  rcases startAll_cases s s1 hstart with ⟨_, rfl⟩ | ⟨_, m0, _, rfl⟩
  · exact hloop
  · intro p hp
    obtain ⟨q, hq, he⟩ := mem_updateC hp
    have := hloop q hq
    subst he
    by_cases hk : q.1 = m0.1 <;> simp [hk, Container.goForeground, this]

/-- When no stop raises, the stop loop reaches every zone and stops it. -/
theorem stopAllLoop_ok (m : ContainerMap) (h : ∀ p ∈ m, p.2.stopFails = false) :
    (stopAllLoop m).2 = false ∧
    ∀ p ∈ (stopAllLoop m).1, p.2.state = ContainerState.stopped := by
  induction m with
  | nil => exact ⟨rfl, by intro p hp; simp [stopAllLoop] at hp⟩
  | cons q rest ih =>
      obtain ⟨k, c⟩ := q
      have hc : c.stopFails = false := h (k, c) (List.mem_cons_self _ _)
      have hrest := ih (fun p hp => h p (List.mem_cons_of_mem _ hp))
      simp only [stopAllLoop, Container.stop, hc, Bool.false_eq_true, if_false]
      refine ⟨hrest.1, ?_⟩
      intro p hp
      simp only [List.mem_cons] at hp
      rcases hp with rfl | hp
      · rfl
      · exact hrest.2 p hp

/-- A running zone whose stop raises a typed error. -/
def zBad : Container :=
  { id := "za", privilege := 2, switchToDefaultAfterTimeout := false,
    permittedToSend := [], permittedToRecv := [],
    state := ContainerState.running, foreground := false,
    stopFails := true, notifyFails := false }

/-- A running zone that stops without error. -/
def zGood : Container :=
  { id := "zb", privilege := 4, switchToDefaultAfterTimeout := false,
    permittedToSend := [], permittedToRecv := [],
    state := ContainerState.running, foreground := false,
    stopFails := false, notifyFails := false }

/-- C8 counterexample: when the first zone's stop raises, the error
escapes the loop (the body has no handler), the second zone keeps
running, and its stop is never invoked even though it would succeed —
contradicting the per-zone swallowing the claim describes. -/
theorem stopAll_error_strands_rest_cex :
    (stopAllLoop [("za", zBad), ("zb", zGood)]).2 = true ∧
    ((stopAllLoop [("za", zBad), ("zb", zGood)]).1.map (fun p => p.2.state)) =
      [ContainerState.running, ContainerState.running] ∧
    zGood.stopFails = false := by decide

/-- C8 (amended): stop_all() invokes stop() on zones in map order; a stop
error propagates out of stop_all (the destructor catches and logs it),
leaving the remaining zones untouched; when no stop errors occur, every
zone is stopped, and after start_all() followed by stop_all() every
zone's final state is STOPPED. -/
theorem stopAll_no_errors_stops_all (s : ManagerState)
    (h : ∀ p ∈ s.containers, p.2.stopFails = false) :
    ((stopAllLoop s.containers).2 = false ∧
     ∀ p ∈ (stopAllLoop s.containers).1, p.2.state = ContainerState.stopped) ∧
    (∀ s1, startAll s = some s1 →
      (stopAllLoop s1.containers).2 = false ∧
      ∀ p ∈ (stopAllLoop s1.containers).1, p.2.state = ContainerState.stopped) :=
  ⟨stopAllLoop_ok s.containers h,
   fun s1 hstart =>
     stopAllLoop_ok s1.containers (startAll_preserves_stopFails s s1 hstart h)⟩

theorem stopAll_no_errors_stops_all_witness :
    (stopAllLoop sTwo.containers).2 = false :=
  ((stopAll_no_errors_stops_all sTwo (by decide)).1).1

/-- Sending a zone to the background twice is the same as once. -/
theorem goBackground_idem (c : Container) :
    c.goBackground.goBackground = c.goBackground := rfl

/-- Filtering after an element-wise map that only falsifies the predicate
cannot increase the count. -/
theorem filter_length_map_le {α : Type} (f : α → α) (pred : α → Bool)
    (h : ∀ x, pred (f x) = true → pred x = true) (m : List α) :
    ((m.map f).filter pred).length ≤ (m.filter pred).length := by
  induction m with
  | nil => simp
  | cons x rest ih =>
      simp only [List.map_cons, List.filter_cons]
      cases hfx : pred (f x) with
      | true =>
          rw [h x hfx]
          simpa using ih
      | false =>
          cases hx : pred x <;> simp <;> omega

/-- One `goBackground` step never increases the running-foreground count. -/
theorem count_goBackgroundAt_le (s : ManagerState) (k : String) :
    runningForegroundCount (goBackgroundAt s k) ≤ runningForegroundCount s := by
  refine filter_length_map_le
    (fun p => if p.1 = k then (p.1, p.2.goBackground) else p)
    (fun p => p.2.foreground && p.2.isRunning) ?_ s.containers
  intro x hx
  dsimp only at hx ⊢
  by_cases hk : x.1 = k
  · rw [if_pos hk] at hx
    simp [Container.goBackground] at hx
  · rwa [if_neg hk] at hx

/-- Every state of the `goBackground` loop trace has a count bounded by
the count before the loop. -/
theorem trace_count_le : ∀ (ks : List String) (s : ManagerState),
    ∀ st ∈ sendAllToBackgroundTrace s ks,
      runningForegroundCount st ≤ runningForegroundCount s := by
  intro ks
  induction ks with
  | nil => intro s st hst; simp [sendAllToBackgroundTrace] at hst
  | cons k ks ih =>
      intro s st hst
      simp only [sendAllToBackgroundTrace, List.mem_cons] at hst
      rcases hst with rfl | hst
      · exact count_goBackgroundAt_le s k
      · exact le_trans (ih (goBackgroundAt s k) st hst) (count_goBackgroundAt_le s k)

/-- Closed form of the `goBackground` loop: exactly the zones whose key
is in the processed list are backgrounded. -/
theorem sendAllToBackground_eq : ∀ (ks : List String) (s : ManagerState),
    sendAllToBackground s ks =
      { s with containers :=
          (s.containers.map
            (fun p => if p.1 ∈ ks then (p.1, p.2.goBackground) else p)) } := by
  intro ks
  induction ks with
  | nil =>
      intro s
      simp [sendAllToBackground]
  | cons k ks ih =>
      intro s
      simp only [sendAllToBackground]
      rw [ih (goBackgroundAt s k)]
      suffices h : (updateC s.containers k Container.goBackground).map
          (fun p => if p.1 ∈ ks then (p.1, p.2.goBackground) else p) =
          s.containers.map
            (fun p => if p.1 ∈ k :: ks then (p.1, p.2.goBackground) else p) by
        simp only [goBackgroundAt] at *
        rw [h]
      rw [updateC, List.map_map]
      refine List.map_congr_left ?_
      intro p _
      by_cases hk : p.1 = k
      · by_cases hmem : p.1 ∈ ks <;>
          simp [hk, hmem, Function.comp, goBackground_idem, List.mem_cons]
      · by_cases hmem : p.1 ∈ ks <;>
          simp [hk, hmem, Function.comp, List.mem_cons]

/-- After the loop has processed every key of the map, no zone holds the
foreground flag. -/
theorem bgAll_all_background (s : ManagerState) :
    ∀ p ∈ (sendAllToBackground s (keysOf s)).containers,
      p.2.foreground = false := by
  rw [sendAllToBackground_eq]
  intro p hp
  simp only [List.mem_map] at hp
  obtain ⟨q, hq, he⟩ := hp
  have hmem : q.1 ∈ keysOf s := List.mem_map_of_mem Prod.fst hq
  rw [if_pos hmem] at he
  rw [← he]
  rfl

/-- The loop never changes the keys of the map. -/
theorem keysOf_bgAll (ks : List String) (s : ManagerState) :
    keysOf (sendAllToBackground s ks) = keysOf s := by
  rw [sendAllToBackground_eq]
  show ((s.containers.map _).map Prod.fst) = _
  rw [List.map_map]
  refine List.map_congr_left ?_
  intro p _
  by_cases hmem : p.1 ∈ ks <;> simp [hmem, Function.comp]

/-- Foregrounding one key of an all-background map with no duplicate keys
yields at most one running foreground zone. -/
theorem cnt_goForeground_le_one : ∀ (m : ContainerMap) (id : String),
    (∀ p ∈ m, p.2.foreground = false) → (m.map Prod.fst).Nodup →
    ((updateC m id Container.goForeground).filter
        (fun p => p.2.foreground && p.2.isRunning)).length ≤ 1 := by
  intro m
  induction m with
  | nil => intro id _ _; simp [updateC]
  | cons q rest ih =>
      intro id hbg hnd
      simp only [List.map_cons, List.nodup_cons] at hnd
      by_cases hk : q.1 = id
      · have hrest : updateC rest id Container.goForeground = rest := by
          rw [updateC]
          have : ∀ p ∈ rest, (if p.1 = id then (p.1, p.2.goForeground) else p) = p := by
            intro p hp
            have hne : p.1 ≠ id := by
              intro he
              refine hnd.1 ?_
              have hm2 : p.1 ∈ rest.map Prod.fst := List.mem_map_of_mem Prod.fst hp
              rwa [he, ← hk] at hm2
            rw [if_neg hne]
          rw [List.map_congr_left this, List.map_id']
        have hfil : rest.filter (fun p => p.2.foreground && p.2.isRunning) = [] := by
          rw [List.filter_eq_nil_iff]
          intro p hp
          simp [hbg p (List.mem_cons_of_mem _ hp)]
        simp only [updateC, List.map_cons, if_pos hk, List.filter_cons]
        rw [show (rest.map fun p => if p.1 = id then (p.1, p.2.goForeground) else p) =
              updateC rest id Container.goForeground from rfl, hrest]
        cases hpred : (((q.1, q.2.goForeground)).2.foreground &&
            ((q.1, q.2.goForeground)).2.isRunning) <;> simp [hfil]
      · have hq : q.2.foreground = false := hbg q (List.mem_cons_self _ _)
        simp only [updateC, List.map_cons, if_neg hk, List.filter_cons, hq]
        simpa using ih id (fun p hp => hbg p (List.mem_cons_of_mem _ hp)) hnd.2

/-- The last element of a list extended with two states. -/
theorem getLast?_append_pair {α : Type} (l : List α) (a b : α) :
    (l ++ [a, b]).getLast? = some b := by
  rw [show l ++ [a, b] = (l ++ [a]) ++ [b] by simp]
  exact List.getLast?_concat _

/-- C5: focus(id) sends go_background to every zone in the map (the
target included) before the final go_foreground and the recording of the
foreground id, so starting from a state with at most one running
foreground zone, every intermediate state of the focus sequence keeps
at most one running foreground zone; the last state of the sequence is
exactly the result of focus. -/
theorem focus_single_foreground_invariant (s : ManagerState) (id : String)
    (hnd : (keysOf s).Nodup)
    (hcnt : runningForegroundCount s ≤ 1) :
    (∀ st ∈ focusTrace s id, runningForegroundCount st ≤ 1) ∧
    (focusTrace s id).getLast? = focus s id := by
  cases hf : findC s id with
  | none =>
      constructor
      · intro st hst
        simp only [focusTrace, hf] at hst
        simp at hst
      · simp only [focusTrace, focus, hf]
        rfl
  | some fg =>
      have htr : focusTrace s id =
          sendAllToBackgroundTrace s (keysOf s) ++
            [{ sendAllToBackground s (keysOf s) with foregroundId := fg.id },
             { sendAllToBackground s (keysOf s) with
                 foregroundId := fg.id,
                 containers := updateC (sendAllToBackground s (keysOf s)).containers
                   id Container.goForeground }] := by
        simp only [focusTrace, hf]
      have hfoc : focus s id =
          some { sendAllToBackground s (keysOf s) with
                 foregroundId := fg.id,
                 containers := updateC (sendAllToBackground s (keysOf s)).containers
                   id Container.goForeground } := by
        simp only [focus, hf]
      have hzero : runningForegroundCount (sendAllToBackground s (keysOf s)) = 0 := by
        have hbg := bgAll_all_background s
        unfold runningForegroundCount
        rw [List.length_eq_zero, List.filter_eq_nil_iff]
        intro p hp
        simp [hbg p hp]
      have hndbg : ((sendAllToBackground s (keysOf s)).containers.map Prod.fst).Nodup := by
        have he : (sendAllToBackground s (keysOf s)).containers.map Prod.fst = keysOf s :=
          keysOf_bgAll (keysOf s) s
        rw [he]
        exact hnd
      have hfin : runningForegroundCount
          { sendAllToBackground s (keysOf s) with
            foregroundId := fg.id,
            containers := updateC (sendAllToBackground s (keysOf s)).containers
              id Container.goForeground } ≤ 1 :=
        cnt_goForeground_le_one (sendAllToBackground s (keysOf s)).containers id
          (bgAll_all_background s) hndbg
      constructor
      · intro st hst
        rw [htr] at hst
        rcases List.mem_append.mp hst with hst | hst
        · exact le_trans (trace_count_le (keysOf s) s st hst) hcnt
        · simp only [List.mem_cons, List.not_mem_nil, or_false] at hst
          rcases hst with rfl | rfl
          · have hmid : runningForegroundCount
                { sendAllToBackground s (keysOf s) with foregroundId := fg.id } =
                runningForegroundCount (sendAllToBackground s (keysOf s)) := rfl
            rw [hmid, hzero]
            exact Nat.zero_le 1
          · exact hfin
      · rw [htr, hfoc, getLast?_append_pair]

theorem focus_single_foreground_invariant_witness :
    (focusTrace sTwo "z2").getLast? = focus sTwo "z2" :=
  (focus_single_foreground_invariant sTwo "z2" (by decide) (by decide)).2

/-- The predicate "has minimal privilege within the list". -/
def minPred (l : List (String × Container)) (p : String × Container) : Bool :=
  l.all (fun q => p.2.privilege ≤ q.2.privilege)

theorem minPred_cons (a : String × Container) (l : List (String × Container))
    (p : String × Container) :
    minPred (a :: l) p =
      (decide (p.2.privilege ≤ a.2.privilege) && minPred l p) := by
  simp [minPred, List.all_cons]

/-- One step of the `std::min_element` fold preserves the
first-element-achieving-the-minimum characterisation. -/
theorem firstMin_cons_step (x y : String × Container) (ys : List (String × Container)) :
    List.find? (minPred ((if y.2.privilege < x.2.privilege then y else x) :: ys))
      ((if y.2.privilege < x.2.privilege then y else x) :: ys) =
    List.find? (minPred (x :: y :: ys)) (x :: y :: ys) := by
  by_cases hc : y.2.privilege < x.2.privilege
  · rw [if_pos hc]
    have hpeq : minPred (y :: ys) = minPred (x :: y :: ys) := by
      funext p
      simp only [minPred_cons]
      by_cases hpy : p.2.privilege ≤ y.2.privilege
      · have hpx : p.2.privilege ≤ x.2.privilege := le_of_lt (lt_of_le_of_lt hpy hc)
        simp [hpy, hpx]
      · simp [hpy]
    have hxneg : ¬ minPred (x :: y :: ys) x = true := by
      rw [minPred_cons, minPred_cons]
      simp [Nat.not_le.mpr hc]
    have hstep : List.find? (minPred (x :: y :: ys)) (x :: y :: ys) =
        List.find? (minPred (x :: y :: ys)) (y :: ys) :=
      List.find?_cons_of_neg _ hxneg
    rw [hpeq, hstep]
  · rw [if_neg hc]
    have hxy : x.2.privilege ≤ y.2.privilege := Nat.le_of_not_lt hc
    have hpeq : minPred (x :: ys) = minPred (x :: y :: ys) := by
      funext p
      simp only [minPred_cons]
      by_cases hpx : p.2.privilege ≤ x.2.privilege
      · have hpy : p.2.privilege ≤ y.2.privilege := le_trans hpx hxy
        simp [hpx, hpy]
      · simp [hpx]
    rw [hpeq]
    by_cases hall : minPred (x :: y :: ys) x = true
    · have h1 : List.find? (minPred (x :: y :: ys)) (x :: ys) = some x :=
        List.find?_cons_of_pos _ hall
      have h2 : List.find? (minPred (x :: y :: ys)) (x :: y :: ys) = some x :=
        List.find?_cons_of_pos _ hall
      rw [h1, h2]
    · have hys : minPred ys x = false := by
        cases hys0 : minPred ys x with
        | false => rfl
        | true =>
            exfalso
            apply hall
            rw [minPred_cons, minPred_cons, hys0]
            simp [hxy]
      have hy : ¬ minPred (x :: y :: ys) y = true := by
        rw [minPred_cons, minPred_cons]
        by_cases hyx : y.2.privilege ≤ x.2.privilege
        · have heq : y.2.privilege = x.2.privilege := Nat.le_antisymm hyx hxy
          have hys2 : minPred ys y = false := by
            rw [show minPred ys y = minPred ys x by
              unfold minPred; rw [heq], hys]
          simp [hys2]
        · simp [hyx]
      have h1 : List.find? (minPred (x :: y :: ys)) (x :: ys) =
          List.find? (minPred (x :: y :: ys)) ys :=
        List.find?_cons_of_neg _ hall
      have h2 : List.find? (minPred (x :: y :: ys)) (x :: y :: ys) =
          List.find? (minPred (x :: y :: ys)) (y :: ys) :=
        List.find?_cons_of_neg _ hall
      have h3 : List.find? (minPred (x :: y :: ys)) (y :: ys) =
          List.find? (minPred (x :: y :: ys)) ys :=
        List.find?_cons_of_neg _ hy
      rw [h1, h2, h3]

/-- The `std::min_element` fold returns the first element achieving the
minimal privilege. -/
theorem foldlMin_eq : ∀ (xs : List (String × Container)) (x : String × Container),
    some (xs.foldl (fun m y => if y.2.privilege < m.2.privilege then y else m) x) =
      List.find? (minPred (x :: xs)) (x :: xs) := by
  intro xs
  induction xs with
  | nil =>
      intro x
      have hx : minPred [x] x = true := by simp [minPred]
      rw [List.find?_cons_of_pos _ hx]
      rfl
  | cons y ys ih =>
      intro x
      simp only [List.foldl_cons]
      rw [ih (if y.2.privilege < x.2.privilege then y else x)]
      exact firstMin_cons_step x y ys

/-- `minElement` formulated as the first element with minimal privilege. -/
theorem minElement_eq_firstMin (m : ContainerMap) :
    minElement m = List.find? (minPred m) m := by
  cases m with
  | nil => rfl
  | cons x xs => exact foldlMin_eq xs x

/-- In a map sorted by key, the first element satisfying a predicate has
a key bounded by the key of every satisfying element. -/
theorem find?_first_key_le (pred : String × Container → Bool) :
    ∀ (m : ContainerMap),
    List.Pairwise (fun p q : String × Container => p.1 < q.1) m →
    ∀ x, m.find? pred = some x → ∀ y ∈ m, pred y = true → x.1 ≤ y.1 := by
  intro m
  induction m with
  | nil => intro _ x hx; simp at hx
  | cons a rest ih =>
      intro hp x hx y hy hpy
      rcases List.pairwise_cons.mp hp with ⟨ha, hrest⟩
      by_cases hpa : pred a = true
      · rw [List.find?_cons_of_pos _ hpa] at hx
        injection hx with hx
        subst hx
        rcases List.mem_cons.mp hy with rfl | hy
        · exact le_refl _
        · exact le_of_lt (ha y hy)
      · rw [List.find?_cons_of_neg _ hpa] at hx
        rcases List.mem_cons.mp hy with rfl | hy
        · exact absurd hpy hpa
        · exact ih hrest x hx y hy hpy

/-- `std::min_element` over the started map is the started image of the
first minimal-privilege element of the original map (starting and
foregrounding zones never changes privileges). -/
theorem minElement_map (m : ContainerMap) (fg : String) :
    minElement (m.map (fun p =>
      (p.1, if p.1 = fg then p.2.start.goForeground else p.2.start))) =
    (m.find? (minPred m)).map (fun p =>
      (p.1, if p.1 = fg then p.2.start.goForeground else p.2.start)) := by
  have priv_f : ∀ r : String × Container,
      (if r.1 = fg then r.2.start.goForeground else r.2.start).privilege =
        r.2.privilege := by
    intro r
    by_cases hk : r.1 = fg <;> simp [hk, Container.start, Container.goForeground]
  rw [minElement_eq_firstMin, List.find?_map]
  have hcomp : (minPred (m.map (fun p =>
      (p.1, if p.1 = fg then p.2.start.goForeground else p.2.start))) ∘
      (fun p => (p.1, if p.1 = fg then p.2.start.goForeground else p.2.start))) =
      minPred m := by
    funext q
    simp only [Function.comp_apply, minPred, List.all_map]
    congr 1
    funext z
    simp only [Function.comp_apply]
    simp [priv_f]
  rw [hcomp]

/-- Zone zA with privilege 5 (stopped, background). -/
def zA5 : Container :=
  { id := "zA", privilege := 5, switchToDefaultAfterTimeout := false,
    permittedToSend := [], permittedToRecv := [],
    state := ContainerState.stopped, foreground := false,
    stopFails := false, notifyFails := false }

/-- Zone zB with privilege 1. -/
def zB1 : Container :=
  { zA5 with id := "zB", privilege := 1 }

/-- Zone zC with privilege 3. -/
def zC3 : Container :=
  { zA5 with id := "zC", privilege := 3 }

/-- The scenario state: empty foreground id, zones zA(5), zB(1), zC(3). -/
def sC6 : ManagerState :=
  { containers := [("zA", zA5), ("zB", zB1), ("zC", zC3)],
    foregroundId := "", defaultId := "zB", containersPath := "/var/zones" }

/-- C6: start_all() starts every zone in map order; when the configured
foreground id names a zone of the map, that zone (having just started)
is sent to the foreground and the configured id is kept; otherwise the
zone with the numerically smallest privilege — ties broken by id order,
the map being sorted by id — becomes foreground and its id is recorded.
In particular, with foreground id empty and zones zA(5), zB(1), zC(3),
after start_all() the active zone id is "zB". -/
theorem startAll_foreground_selection_spec :
    (∀ (s : ManagerState) (s1 : ManagerState),
      (∀ p ∈ s.containers, p.2.id = p.1) →
      List.Pairwise (fun p q : String × Container => p.1 < q.1) s.containers →
      startAll s = some s1 →
      (∀ p ∈ s1.containers, p.2.isRunning = true) ∧
      (s.foregroundId ∈ keysOf s →
        s1.foregroundId = s.foregroundId ∧
        ∀ p ∈ s1.containers, p.1 = s.foregroundId → p.2.foreground = true) ∧
      (s.foregroundId ∉ keysOf s →
        ∃ x ∈ s.containers,
          s1.foregroundId = x.1 ∧
          (∀ y ∈ s.containers, x.2.privilege ≤ y.2.privilege) ∧
          (∀ y ∈ s.containers, y.2.privilege = x.2.privilege → x.1 ≤ y.1) ∧
          (∀ p ∈ s1.containers, p.1 = x.1 → p.2.foreground = true))) ∧
    (∃ sAuto, startAll sC6 = some sAuto ∧ sAuto.foregroundId = "zB" ∧
      handleGetActiveContainerIdCall sAuto = some "zB") := by
  constructor
  · intro s s1 hkeys hsort hstart
    have hloop := startAllLoop_eq s.containers s.foregroundId
    have hr1 : (startAllLoop s.containers s.foregroundId).1 =
        s.containers.map (fun p =>
          (p.1, if p.1 = s.foregroundId then p.2.start.goForeground else p.2.start)) := by
      rw [hloop]
    have hr2 : (startAllLoop s.containers s.foregroundId).2 =
        s.containers.any (fun p => p.1 = s.foregroundId) := by
      rw [hloop]
    have hany : (s.containers.any (fun p => p.1 = s.foregroundId)) = true ↔
        s.foregroundId ∈ keysOf s := by
      rw [List.any_eq_true]
      constructor
      · rintro ⟨p, hp, hpe⟩
        simp only [decide_eq_true_eq] at hpe
        rw [keysOf, List.mem_map]
        exact ⟨p, hp, hpe⟩
      · intro hin
        rw [keysOf, List.mem_map] at hin
        obtain ⟨p, hp, hpe⟩ := hin
        exact ⟨p, hp, by simp [hpe]⟩
    have hrunloop : ∀ p ∈ (startAllLoop s.containers s.foregroundId).1,
        p.2.isRunning = true ∧ p.2.state = ContainerState.running := by
      rw [hr1]
      intro p hp
      simp only [List.mem_map] at hp
      obtain ⟨q, _, he⟩ := hp
      subst he
      by_cases hk : q.1 = s.foregroundId <;>
        simp [hk, Container.start, Container.goForeground, Container.isRunning]
    rcases startAll_cases s s1 hstart with ⟨hfound, rfl⟩ | ⟨hnf, m0, hmin, rfl⟩
    · refine ⟨fun p hp => (hrunloop p hp).1, ?_, ?_⟩
      · intro _
        refine ⟨rfl, ?_⟩
        intro p hp hpk
        rw [hr1] at hp
        simp only [List.mem_map] at hp
        obtain ⟨q, _, he⟩ := hp
        have hq1 : q.1 = s.foregroundId := by
          rw [← he] at hpk
          exact hpk
        rw [← he, hq1]
        simp [Container.goForeground]
      · intro hni
        rw [hr2] at hfound
        exact absurd (hany.mp hfound) hni
    · rw [hr1, minElement_map] at hmin
      rcases hfx : s.containers.find? (minPred s.containers) with _ | x
      · rw [hfx] at hmin
        simp at hmin
      · rw [hfx] at hmin
        simp only [Option.map_some'] at hmin
        have hxmem := List.mem_of_find?_eq_some hfx
        have hpx := List.find?_some hfx
        have hxmin : ∀ y ∈ s.containers, x.2.privilege ≤ y.2.privilege := by
          rw [minPred, List.all_eq_true] at hpx
          intro y hy
          simpa using hpx y hy
        have hfm := Option.some.inj hmin
        have hm0id : m0.1 = x.1 := by rw [← hfm]
        have hm0cid : m0.2.id = x.1 := by
          rw [← hfm]
          show (if x.1 = s.foregroundId
            then x.2.start.goForeground else x.2.start).id = x.1
          have hidpres : (if x.1 = s.foregroundId
              then x.2.start.goForeground else x.2.start).id = x.2.id := by
            by_cases hk : x.1 = s.foregroundId <;>
              simp [hk, Container.start, Container.goForeground]
          rw [hidpres]
          exact hkeys x hxmem
        refine ⟨?_, ?_, ?_⟩
        · intro p hp
          obtain ⟨q, hq, he⟩ := mem_updateC hp
          have hqrun := (hrunloop q hq).2
          subst he
          by_cases hk : q.1 = m0.1 <;>
            simp [hk, Container.goForeground, Container.isRunning, hqrun]
        · intro hin
          exfalso
          rw [hr2] at hnf
          rw [hany.mpr hin] at hnf
          simp at hnf
        · intro _
          refine ⟨x, hxmem, ?_, hxmin, ?_, ?_⟩
          · exact hm0cid
          · intro y hy hye
            refine find?_first_key_le (minPred s.containers) s.containers hsort
              x hfx y hy ?_
            rw [minPred, List.all_eq_true]
            intro z hz
            simp only [decide_eq_true_eq]
            rw [hye]
            exact hxmin z hz
          · intro p hp hpk
            obtain ⟨q, hq, he⟩ := mem_updateC hp
            have hq1 : q.1 = x.1 := by
              by_cases hk : q.1 = m0.1
              · rw [← hm0id]; exact hk
              · rw [if_neg hk] at he
                rw [he] at hpk
                exact hpk
            have hk : q.1 = m0.1 := by rw [hq1, hm0id]
            rw [if_pos hk] at he
            rw [he]
            simp [Container.goForeground]
  · exact ⟨(startAll sC6).getD sC6, by decide, by decide, by decide⟩

theorem startAll_foreground_selection_spec_witness :
    ((startAll sTwo).getD sTwo).foregroundId = "z1" ∧
    (∃ sAuto, startAll sC6 = some sAuto ∧ sAuto.foregroundId = "zB" ∧
      handleGetActiveContainerIdCall sAuto = some "zB") := by
  constructor
  · have hsort : List.Pairwise (fun p q : String × Container => p.1 < q.1)
        sTwo.containers := by
      refine List.Pairwise.cons ?_ (List.Pairwise.cons ?_ List.Pairwise.nil)
      · intro b hb
        simp only [List.mem_cons, List.not_mem_nil, or_false] at hb
        subst hb
        show ("z1" : String) < "z2"
        rw [String.lt_iff_toList_lt]
        decide
      · intro b hb
        simp at hb
    exact ((startAll_foreground_selection_spec.1 sTwo ((startAll sTwo).getD sTwo)
      (by decide) hsort (by decide)).2.1 (by decide)).1
  · exact startAll_foreground_selection_spec.2
